import Mathlib

/-!
# Eschersketch: history stack, tool resumption and symmetry update

A shallow embedding of `src/main.js`: the command and redo stacks with the
undo floor (`commitOp`, `rerender`, `switchTool`, `undo`, `redo`, `reset`,
`serialize`, `ressurectOp`, `deserialize`), and the selection of the active
transform set (`updateSymmetry`, `initState`).

JavaScript arrays are lists whose last element is the top of the stack
(`push` appends, `pop` removes the last element).  The module-level variables
and the reactive object `gS` are the fields of `State`; every function takes
the state and returns it.  A JavaScript exception is the result `Result.error`,
which carries the state as it was when the exception was raised.  Calls to the
canvas contexts and to the tool objects are recorded, in order, in `State.log`.
-/

namespace Eschersketch

/-! ## Numbers -/

/-- A JavaScript number.  `fin q` is the finite value `q`, with `fin 0` the
positive zero; `negZero` is the negative zero; the three non-finite values are
kept apart.  Finite arithmetic is exact: the rounding error of double
precision is not modelled. -/
inductive JSNum where
  | fin (q : ℚ)
  | negZero
  | posInf
  | negInf
  | nan
  deriving DecidableEq

namespace JSNum

instance : OfNat JSNum n := ⟨fin (n : ℚ)⟩

/-- The operator `/`, with the sign rules of IEEE 754 for zeros and
infinities. -/
def div : JSNum → JSNum → JSNum
  | fin a, fin b =>
      if b = 0 then (if 0 < a then posInf else if a < 0 then negInf else nan)
      else if a = 0 then (if b < 0 then negZero else fin 0)
      else fin (a / b)
  | fin a, negZero => if 0 < a then negInf else if a < 0 then posInf else nan
  | negZero, fin b => if b = 0 then nan else if b < 0 then fin 0 else negZero
  | negZero, negZero => nan
  | fin a, posInf => if a < 0 then negZero else fin 0
  | fin a, negInf => if a < 0 then fin 0 else negZero
  | negZero, posInf => negZero
  | negZero, negInf => fin 0
  | posInf, fin b => if 0 ≤ b then posInf else negInf
  | posInf, negZero => negInf
  | negInf, fin b => if 0 ≤ b then negInf else posInf
  | negInf, negZero => posInf
  | _, _ => nan

/-- The operator `*`, with the sign rules of IEEE 754 for zeros and
infinities. -/
def mul : JSNum → JSNum → JSNum
  | fin a, fin b =>
      if a * b = 0 then (if a < 0 ∨ b < 0 then negZero else fin 0)
      else fin (a * b)
  | fin a, negZero => if a < 0 then fin 0 else negZero
  | negZero, fin b => if b < 0 then fin 0 else negZero
  | negZero, negZero => fin 0
  | fin a, posInf => if 0 < a then posInf else if a < 0 then negInf else nan
  | fin a, negInf => if 0 < a then negInf else if a < 0 then posInf else nan
  | posInf, fin b => if 0 < b then posInf else if b < 0 then negInf else nan
  | negInf, fin b => if 0 < b then negInf else if b < 0 then posInf else nan
  | posInf, posInf => posInf
  | negInf, negInf => posInf
  | posInf, negInf => negInf
  | negInf, posInf => negInf
  | _, _ => nan

instance : Div JSNum := ⟨div⟩
instance : Mul JSNum := ⟨mul⟩

/-- The function `Math.round`: the nearest integer, halves going up; a negative
value that rounds to zero gives the negative zero; the zeros and the
non-finite values are returned unchanged. -/
def round : JSNum → JSNum
  | fin q =>
      if ⌊q + 1 / 2⌋ = 0 ∧ q < 0 then negZero
      else fin ((⌊q + 1 / 2⌋ : ℤ) : ℚ)
  | x => x

/-- The operator `<`: false whenever an operand is `NaN`; the two zeros compare
as equal. -/
def lt : JSNum → JSNum → Bool
  | fin a, fin b => decide (a < b)
  | fin a, negZero => decide (a < 0)
  | negZero, fin b => decide (0 < b)
  | fin _, posInf => true
  | negZero, posInf => true
  | negInf, fin _ => true
  | negInf, negZero => true
  | negInf, posInf => true
  | _, _ => false

/-- The operator `<=`: false whenever an operand is `NaN`; the two zeros
compare as equal. -/
def le : JSNum → JSNum → Bool
  | fin a, fin b => decide (a ≤ b)
  | fin a, negZero => decide (a ≤ 0)
  | negZero, fin b => decide (0 ≤ b)
  | negZero, negZero => true
  | fin _, posInf => true
  | negZero, posInf => true
  | negInf, fin _ => true
  | negInf, negZero => true
  | negInf, posInf => true
  | posInf, posInf => true
  | negInf, negInf => true
  | _, _ => false

end JSNum

/-! ## Drawing operations -/

/-- A value that `JSON.stringify` can write and `JSON.parse` can read back. -/
inductive Json where
  | null
  | bool (b : Bool)
  | num (q : ℚ)
  | str (s : String)
  | arr (xs : List Json)
  | obj (kvs : List (String × Json))

/-- The own properties of an object other than `tool`, in insertion order,
read by first match. -/
abbrev Fields := List (String × Json)

/-- The operation classes imported by `main.js` and listed in `opsTable`. -/
inductive OpClass where
  | LineOp
  | PencilOp
  | CircleOp
  | PathOp
  | PolyOp
  deriving DecidableEq

/-- A drawing operation: an instance of one of the operation classes, with its
`tool` property and its remaining own properties. -/
structure Op where
  cls : OpClass
  tool : String
  fields : Fields

/-- A record of a saved file, as `JSON.parse` returns it: a plain object with a
`tool` property and further properties. -/
structure DeadOp where
  tool : String
  fields : Fields

/-! ## Tools -/

/-- Modelled from the spec: the tool sessions (`lineTool.js`, `circleTool.js`,
`pencilTool.js`, `gridTool.js`, `polyTool.js`, `pathTool.js` are not under
`src/`).  A tool object has `commit`; `enter` and `exit` are the capabilities
that `main.js` tests with `in`; `live` is the in-progress operation the tool
holds, if any. -/
structure Tool where
  hasEnter : Bool
  hasExit : Bool
  live : Option Op

/-- A call that leaves `main.js`: a method of a tool object or of a canvas
context. -/
inductive Effect where
  | toolCommit (tool : String)
  | toolExit (tool : String)
  | toolEnter (tool : String) (op : Option Op)
  | render (op : Op)
  | clearCanvas
  | clearLive

/-! ## Symmetry state -/

/-- The object `gS.symmState`. -/
structure SymmState where
  sym : String
  x : JSNum
  y : JSNum
  d : JSNum
  t : JSNum
  Nx : JSNum
  Ny : JSNum
  Nrot : JSNum
  Nref : JSNum
  rot : JSNum

/-- The value of `affineset`.  The generators live in `symmetryGenerator.js`
(not under `src/`): a value of this type records which generator produced the
active set and the arguments it was called with.  `generateTiling` is called
with `planarSymmetries[sym]`, recorded as `sym`; `RosetteGroup` is called with
the rotation converted to radians, `rot/180.0*Math.PI`, recorded as `rot`. -/
inductive AffineSet where
  | unset
  | IdentitySet
  | generateTiling (sym : String) (Nx Ny d t x y : JSNum)
  | RosetteGroup (Nrot Nref x y rot : JSNum)

/-- The argument of `updateSymmetry`: either the object `gS.symmState` itself
or a different object, such as the copy made by `_.clone`. -/
inductive SymmRef where
  | global
  | detached (c : SymmState)

/-! ## Program state -/

/-- The mutable globals of `main.js`. -/
structure State where
  CANVAS_WIDTH : JSNum
  CANVAS_HEIGHT : JSNum
  innerWidth : JSNum
  innerHeight : JSNum
  dynamicGridSize : Bool
  symmState : SymmState
  affineset : AffineSet
  curTool : String
  tools : String → Tool
  cmdstack : List Op
  redostack : List Op
  undo_init_bound : Nat
  log : List Effect

/-- The exceptions raised by the modelled code: all are `TypeError`s (a method
or property looked up on `undefined`, a missing method called, `new` applied to
`undefined`). -/
inductive JSError where
  | typeError
  deriving DecidableEq

/-- The outcome of a call: normal return, or an exception together with the
state at the moment it was raised. -/
inductive Result where
  | ok (s : State)
  | error (e : JSError) (s : State)

/-- Sequencing: an exception stops the rest. -/
def Result.bind (r : Result) (f : State → Result) : Result :=
  match r with
  | .ok s => f s
  | .error e s => .error e s

/-- The state a call ends in, normally or not. -/
def Result.state : Result → State
  | .ok s => s
  | .error _ s => s

/-- Whether the call raised. -/
def Result.isError : Result → Bool
  | .ok _ => false
  | .error _ _ => true

/-! ## Constants and tables -/

/-- The constant `gCONSTS.TILINGSYMS`. -/
def TILINGSYMS : List String :=
  ["p1", "diagonalgrid", "pm", "cm", "pg",
   "pmg", "pgg", "pmm", "p2", "cmm",
   "p4", "p4g", "p4m",
   "hexgrid", "p3", "p6", "p31m", "p3m1", "p6m"]

/-- The keys of the table `drawTools`. -/
def drawToolKeys : List String :=
  ["line", "circle", "pencil", "grid", "poly", "bezier"]

/-- The lookup `drawTools[name]`: `undefined` (here `none`) for a name that is
not a key.  Names inherited from `Object.prototype` are not modelled. -/
def drawTools (s : State) (name : String) : Option Tool :=
  if name ∈ drawToolKeys then some (s.tools name) else none

/-- The keys of the table `opsTable`. -/
def opsKeys : List String := ["line", "pencil", "circle", "bezier", "poly"]

/-- The lookup `opsTable[tag]`: `undefined` (here `none`) for a tag that is not
a key.  Names inherited from `Object.prototype` are not modelled. -/
def opsTable (tag : String) : Option OpClass :=
  if tag = "line" then some .LineOp
  else if tag = "pencil" then some .PencilOp
  else if tag = "circle" then some .CircleOp
  else if tag = "bezier" then some .PathOp
  else if tag = "poly" then some .PolyOp
  else none

/-! ## Tool methods -/

/-- Replace the tool object stored under `name`. -/
def setTool (name : String) (t : Tool) (s : State) : State :=
  { s with tools := fun k => if k = name then t else s.tools k }

/-- The in-progress operation of the active tool. -/
def inProgress (s : State) : Option Op :=
  (s.tools s.curTool).live

/-- The function `commitOp`. -/
def commitOp (op : Op) (s : State) : State :=
  { s with cmdstack := s.cmdstack ++ [op], log := s.log ++ [Effect.render op] }

/-- Modelled from the spec: the method `commit` of a tool (the tool files are
not under `src/`).  It hands the in-progress operation, if there is one, to
`commitOp`. -/
def toolCommit (name : String) (s : State) : State :=
  let s1 := { s with log := s.log ++ [Effect.toolCommit name] }
  match (s.tools name).live with
  | some op => commitOp op s1
  | none => s1

/-- Modelled from the spec: the method `exit` of a tool (the tool files are not
under `src/`).  The tool lets go of its in-progress operation. -/
def toolExit (name : String) (s : State) : State :=
  setTool name { s.tools name with live := none }
    { s with log := s.log ++ [Effect.toolExit name] }

/-- Modelled from the spec: the method `enter` of a tool (the tool files are
not under `src/`).  Called with an operation the tool resumes it: it becomes
the in-progress operation; called without, the tool starts afresh. -/
def toolEnter (name : String) (op : Option Op) (s : State) : State :=
  setTool name { s.tools name with live := op }
    { s with log := s.log ++ [Effect.toolEnter name op] }

/-- The statement `drawTools[name].commit()`. -/
def callCommit (name : String) (s : State) : Result :=
  match drawTools s name with
  | none => .error .typeError s
  | some _ => .ok (toolCommit name s)

/-- The statement `drawTools[name].exit()`, without a test for the method. -/
def callExit (name : String) (s : State) : Result :=
  match drawTools s name with
  | none => .error .typeError s
  | some t => if t.hasExit then .ok (toolExit name s) else .error .typeError s

/-- The statement `if('exit' in tool){ tool.exit(); }`. -/
def guardedExit (name : String) (s : State) : Result :=
  match drawTools s name with
  | none => .error .typeError s
  | some t => if t.hasExit then .ok (toolExit name s) else .ok s

/-- The statement `if('enter' in tool){ tool.enter(op); }`. -/
def guardedEnter (name : String) (op : Option Op) (s : State) : Result :=
  match drawTools s name with
  | none => .error .typeError s
  | some t => if t.hasEnter then .ok (toolEnter name op s) else .ok s

/-! ## Command stack -/

/-- The function `rerender`, called on the persistent context with `clear`
left at its default. -/
def rerender (s : State) : State :=
  { s with log := s.log ++ Effect.clearCanvas :: s.cmdstack.map Effect.render }

/-- The statement `lctx.clearRect(...)`. -/
def clearLive (s : State) : State :=
  { s with log := s.log ++ [Effect.clearLive] }

/-- The function `changeTool`. -/
def changeTool (toolName : String) (s : State) : Result :=
  (callCommit s.curTool s).bind fun s1 =>
  (guardedExit s1.curTool s1).bind fun s2 =>
  guardedEnter toolName none { s2 with curTool := toolName }

/-- The function `switchTool`. -/
def switchTool (toolName : String) (op : Op) (s : State) : Result :=
  (guardedExit s.curTool s).bind fun s1 =>
  guardedEnter toolName (some op) { s1 with curTool := toolName }

/-- The function `undo`.  Each `pop` is applied to a stack that the test before
it has shown to be non-empty, so the branches for an empty stack are never
taken. -/
def undo (s : State) : Result :=
  if s.undo_init_bound < s.cmdstack.length then
    (callCommit s.curTool s).bind fun s1 =>
    match s1.cmdstack.getLast? with
    | none => .ok s1
    | some cmd =>
      let s2 := { s1 with cmdstack := s1.cmdstack.dropLast,
                          redostack := s1.redostack ++ [cmd] }
      if 0 < s2.cmdstack.length then
        match s2.cmdstack.getLast? with
        | none => .ok s2
        | some cmd2 =>
          let s3 := { s2 with cmdstack := s2.cmdstack.dropLast }
          switchTool cmd2.tool cmd2 (rerender s3)
      else
        (callExit s2.curTool s2).bind fun s3 =>
        .ok (clearLive (rerender s3))
  else
    (callExit s.curTool s).bind fun s1 =>
    .ok (clearLive s1)

/-- The function `redo`. -/
def redo (s : State) : Result :=
  if 0 < s.redostack.length then
    (callCommit s.curTool s).bind fun s1 =>
    match s1.redostack.getLast? with
    | none => .ok s1
    | some cmd =>
      let s2 := { s1 with redostack := s1.redostack.dropLast }
      switchTool cmd.tool cmd (rerender s2)
  else
    .ok s

/-! ## Symmetry update -/

/-- The object an argument of `updateSymmetry` refers to, read in state `s`. -/
def SymmRef.read (r : SymmRef) (s : State) : SymmState :=
  match r with
  | .global => s.symmState
  | .detached c => c

/-- The clamp `n < 50 ? n : 50`. -/
def clamp50 (n : JSNum) : JSNum :=
  if JSNum.lt n 50 then n else 50

/-- The function `updateSymmetry`.  The grid counts are recomputed from
`gS.symmState.d` and stored in `gS.symmState`; the generator is called with the
properties of the argument. -/
def updateSymmetry (arg : SymmRef) (s : State) : Result :=
  let s1 : State :=
    if s.dynamicGridSize then
      let newNx := JSNum.round ((s.CANVAS_WIDTH / s.symmState.d) * 2)
      let newNy := JSNum.round ((s.CANVAS_HEIGHT / s.symmState.d) * 2)
      { s with symmState :=
          { s.symmState with Nx := clamp50 newNx, Ny := clamp50 newNy } }
    else s
  let symmState := arg.read s1
  if symmState.sym = "none" then
    .ok { s1 with affineset := .IdentitySet }
  else if symmState.sym ∈ TILINGSYMS then
    .ok { s1 with affineset :=
      (.generateTiling symmState.sym symmState.Nx symmState.Ny
        symmState.d symmState.t symmState.x symmState.y) }
  else
    .ok { s1 with affineset :=
      (.RosetteGroup symmState.Nrot symmState.Nref symmState.x symmState.y
        symmState.rot) }

/-- The function `initState` (the copy of the stroke style onto the live
context is not modelled). -/
def initState (s : State) : Result :=
  let w := s.innerWidth
  let h := s.innerHeight
  let s1 : State := { s with symmState :=
    { s.symmState with
        x := JSNum.round (w / 2),
        y := JSNum.round (h / 2),
        Nx := JSNum.round ((w / s.symmState.d) * 2),
        Ny := JSNum.round ((h / s.symmState.d) * 2) } }
  (updateSymmetry (.detached s1.symmState) s1).bind fun s2 =>
  .ok (rerender { s2 with undo_init_bound := s2.cmdstack.length })

/-- The handler of the event `symmUpdate`, up to the call of `updateSymmetry`
(the new settings have already been assigned to `gS.symmState`). -/
def symmUpdate (s : State) : Result :=
  updateSymmetry .global s

/-- The function `reset`. -/
def reset (s : State) : Result :=
  (guardedExit s.curTool s).bind fun s1 =>
  initState (clearLive { s1 with redostack := [], cmdstack := [] })

/-! ## Saving and loading -/

/-- The function `serialize`.  The text that `JSON.stringify` writes is
represented by the array of records that `JSON.parse` reads back from it: one
record per operation, with its `tool` and its other own properties. -/
def serialize (s : State) : List DeadOp :=
  s.cmdstack.map fun op => { tool := op.tool, fields := op.fields }

/-- The assignment `o[k] = v` on the properties of an object. -/
def setField (o : Fields) (k : String) (v : Json) : Fields :=
  match o with
  | [] => [(k, v)]
  | (k', v') :: rest =>
      if k' = k then (k, v) :: rest else (k', v') :: setField rest k v

/-- The call `_.assign(target, source)` on the properties of two objects: for
each key of the source, in order, `target[key] = source[key]`. -/
def assignFields (target source : Fields) : Fields :=
  (source.map Prod.fst).foldl
    (fun acc k =>
      match source.lookup k with
      | some v => setField acc k v
      | none => acc)
    target

/-- Modelled from the spec: the operation constructors called without
arguments (`LineOp`, `PencilOp`, `CircleOp`, `PathOp`, `PolyOp` are not under
`src/`).  The new object is of the class asked for; no property of it has a
value yet, except the tool tag. -/
def newOp (cls : OpClass) : Op :=
  { cls := cls
    tool := match cls with
      | .LineOp => "line"
      | .PencilOp => "pencil"
      | .CircleOp => "circle"
      | .PathOp => "bezier"
      | .PolyOp => "poly"
    fields := [] }

/-- The function `ressurectOp`: `none` when `new` is applied to `undefined`. -/
def ressurectOp (deadOp : DeadOp) : Option Op :=
  match opsTable deadOp.tool with
  | none => Option.none
  | some cls =>
      let op := newOp cls
      some { cls := op.cls, tool := deadOp.tool,
             fields := assignFields op.fields deadOp.fields }

/-- The loop of `deserialize` that fills `newstack`: `none` when
`ressurectOp` raises. -/
def ressurectAll : List DeadOp → Option (List Op)
  | [] => some []
  | obj :: rest =>
      match ressurectOp obj with
      | none => none
      | some op =>
          match ressurectAll rest with
          | none => none
          | some ops => some (op :: ops)

/-- The function `deserialize`, applied to the array that `JSON.parse` returns
for the text. -/
def deserialize (deadArr : List DeadOp) (s : State) : Result :=
  (reset s).bind fun s1 =>
  match ressurectAll deadArr with
  | none => .error .typeError s1
  | some newstack => .ok (rerender { s1 with cmdstack := newstack })

/-! ## Well-formed states -/

/-- Every tool object of `drawTools` has both optional capabilities, `enter`
and `exit`. -/
def ToolsComplete (s : State) : Prop :=
  ∀ k ∈ drawToolKeys, (s.tools k).hasEnter = true ∧ (s.tools k).hasExit = true

/-- The typing discipline that JavaScript does not enforce: the active tool is
a key of `drawTools`, the tool objects have `enter` and `exit`, and the `tool`
property of every operation held by a stack or by a tool is a key of
`drawTools`. -/
def WellFormed (s : State) : Prop :=
  s.curTool ∈ drawToolKeys ∧
  ToolsComplete s ∧
  (∀ op ∈ s.cmdstack, op.tool ∈ drawToolKeys) ∧
  (∀ op ∈ s.redostack, op.tool ∈ drawToolKeys) ∧
  (∀ k ∈ drawToolKeys, ∀ op, (s.tools k).live = some op → op.tool ∈ drawToolKeys)

/-- The history as it is once the active tool has committed: the committed
operations followed by the in-progress one, if any. -/
def effective (s : State) : List Op :=
  s.cmdstack ++ (inProgress s).toList

/-! ## Sample data -/

/-- A tool object with both capabilities and nothing in progress. -/
def idleTool : Tool := { hasEnter := true, hasExit := true, live := none }

/-- A line from (0,0) to (10,10). -/
def opA : Op :=
  { cls := .LineOp, tool := "line",
    fields := [("start", .arr [.num 0, .num 0]), ("end", .arr [.num 10, .num 10])] }

/-- A circle. -/
def opB : Op :=
  { cls := .CircleOp, tool := "circle",
    fields := [("center", .arr [.num 5, .num 5]), ("radius", .num 3)] }

/-- A polygon with three vertices. -/
def opC : Op :=
  { cls := .PolyOp, tool := "poly",
    fields := [("points", .arr [.arr [.num 0, .num 0], .arr [.num 4, .num 0],
                                .arr [.num 4, .num 3]])] }

/-- The symmetry state that `gS` starts with. -/
def symm0 : SymmState :=
  { sym := "p6m", x := 800, y := 400, d := 100, t := 0, Nx := 18, Ny := 14,
    Nrot := 3, Nref := 2, rot := 0 }

/-- The state after start-up on a 1600 by 1200 window: empty stacks, the pencil
active, nothing in progress. -/
def state0 : State :=
  { CANVAS_WIDTH := 1600, CANVAS_HEIGHT := 1200
    innerWidth := 1600, innerHeight := 1200
    dynamicGridSize := true
    symmState := symm0
    affineset := .unset
    curTool := "pencil"
    tools := fun _ => idleTool
    cmdstack := [], redostack := [], undo_init_bound := 0
    log := [] }

/-- Two committed operations and a polygon in progress in the polygon tool. -/
def statePoly : State :=
  { state0 with
    curTool := "poly"
    tools := fun k => if k = "poly" then { idleTool with live := some opC } else idleTool
    cmdstack := [opA, opB] }

/-- One committed operation, two undone ones (the polygon undone first, the
circle last), the line tool active. -/
def stateRedo : State :=
  { state0 with curTool := "line", cmdstack := [opA], redostack := [opC, opB] }

/-- The line and the circle committed, the circle tool active with nothing in
progress, floor 0. -/
def stateAB : State :=
  { state0 with curTool := "circle", cmdstack := [opA, opB] }

/-- The same history with the floor at 1: the line is start-up content. -/
def stateFloor : State :=
  { stateAB with undo_init_bound := 1 }

/-- Both stacks empty and the active tool an object without `exit`. -/
def stateNoExit : State :=
  { state0 with
    curTool := "grid"
    tools := fun k =>
      if k = "grid" then { hasEnter := true, hasExit := false, live := none } else idleTool }

/-- What the claim asks of entry `o` of the saved history and the entry `o1`
rebuilt from its record: `o1` is of the class that `opsTable` gives for the tag
of `o`, carries the same tag, and reads the same value as `o` under every
property name. -/
def Rebuilt (o o1 : Op) : Prop :=
  opsTable o.tool = some o1.cls ∧ o1.tool = o.tool ∧
  ∀ k, o1.fields.lookup k = o.fields.lookup k

/-- The line alone committed, the line tool active. -/
def stateA : State :=
  { state0 with curTool := "line", cmdstack := [opA] }

/-- A file whose second record carries a tag that `opsTable` does not have. -/
def badFile : List DeadOp :=
  [{ tool := "circle", fields := [("radius", .num 3)] },
   { tool := "eraser", fields := [] }]

/-- Start-up on a 3840 by 2160 window, with the spacing `gS` starts with. -/
def stateWide : State :=
  { state0 with
    CANVAS_WIDTH := 3840, CANVAS_HEIGHT := 2160
    innerWidth := 3840, innerHeight := 2160 }

/-- A symmetry state whose name is neither `none` nor `rosette` nor a name of
`TILINGSYMS`. -/
def symmUnknown : SymmState := { symm0 with sym := "p7" }

/-- The global symmetry state set to another name outside the catalog. -/
def stateUnknown : State :=
  { state0 with symmState := { symm0 with sym := "kaleidoscope" } }

/-- The start-up state with a negative spacing. -/
def stateNegD : State :=
  { state0 with symmState := { symm0 with d := JSNum.fin (-100) } }

/-- The start-up state with a spacing of 4000, more than twice the width and
more than twice the height of the canvas. -/
def stateBigD : State :=
  { state0 with symmState := { symm0 with d := 4000 } }

/-- The start-up state with the negative zero as spacing. -/
def stateNegZeroD : State :=
  { state0 with symmState := { symm0 with d := JSNum.negZero } }

/-! ## Basic facts -/

theorem drawTools_of_mem (s : State) (name : String) (h : name ∈ drawToolKeys) :
    drawTools s name = some (s.tools name) := by
  simp [drawTools, h]

theorem toolCommit_cmdstack (name : String) (s : State) :
    (toolCommit name s).cmdstack = s.cmdstack ++ ((s.tools name).live).toList := by
  unfold toolCommit
  cases (s.tools name).live <;> simp [commitOp]

theorem toolCommit_log (name : String) (s : State) :
    (toolCommit name s).log =
      s.log ++ Effect.toolCommit name :: ((s.tools name).live).toList.map Effect.render := by
  unfold toolCommit
  cases (s.tools name).live <;> simp [commitOp]

theorem toolCommit_redostack (name : String) (s : State) :
    (toolCommit name s).redostack = s.redostack := by
  unfold toolCommit
  cases (s.tools name).live <;> simp [commitOp]

theorem toolCommit_curTool (name : String) (s : State) :
    (toolCommit name s).curTool = s.curTool := by
  unfold toolCommit
  cases (s.tools name).live <;> simp [commitOp]

theorem toolCommit_tools (name : String) (s : State) :
    (toolCommit name s).tools = s.tools := by
  unfold toolCommit
  cases (s.tools name).live <;> simp [commitOp]

theorem toolCommit_floor (name : String) (s : State) :
    (toolCommit name s).undo_init_bound = s.undo_init_bound := by
  unfold toolCommit
  cases (s.tools name).live <;> simp [commitOp]

theorem updateSymmetry_ok (arg : SymmRef) (s : State) :
    ∃ s1, updateSymmetry arg s = .ok s1 ∧
      s1.cmdstack = s.cmdstack ∧ s1.redostack = s.redostack ∧
      s1.curTool = s.curTool ∧ s1.tools = s.tools ∧ s1.log = s.log ∧
      s1.undo_init_bound = s.undo_init_bound := by
  unfold updateSymmetry
  by_cases hd : s.dynamicGridSize = true <;>
  simp only [hd, if_true, if_false] <;>
  split_ifs <;> simp

theorem initState_ok (s : State) :
    ∃ s1, initState s = .ok s1 ∧
      s1.cmdstack = s.cmdstack ∧ s1.redostack = s.redostack ∧
      s1.curTool = s.curTool ∧ s1.tools = s.tools ∧
      s1.undo_init_bound = s.cmdstack.length := by
  unfold initState
  obtain ⟨s1, h, hc, hr, ht, hts, _, _⟩ :=
    updateSymmetry_ok
      (.detached { s.symmState with
        x := JSNum.round (s.innerWidth / 2),
        y := JSNum.round (s.innerHeight / 2),
        Nx := JSNum.round ((s.innerWidth / s.symmState.d) * 2),
        Ny := JSNum.round ((s.innerHeight / s.symmState.d) * 2) })
      { s with symmState :=
        { s.symmState with
          x := JSNum.round (s.innerWidth / 2),
          y := JSNum.round (s.innerHeight / 2),
          Nx := JSNum.round ((s.innerWidth / s.symmState.d) * 2),
          Ny := JSNum.round ((s.innerHeight / s.symmState.d) * 2) } }
  simp only [h, Result.bind]
  refine ⟨_, rfl, ?_⟩
  simp [rerender, hc, hr, ht, hts]

theorem reset_ok (s : State) (hcur : s.curTool ∈ drawToolKeys) :
    ∃ s1, reset s = .ok s1 ∧
      s1.cmdstack = [] ∧ s1.redostack = [] ∧ s1.curTool = s.curTool ∧
      s1.undo_init_bound = 0 := by
  unfold reset
  have hg : ∃ s0, guardedExit s.curTool s = .ok s0 ∧ s0.curTool = s.curTool := by
    simp only [guardedExit, drawTools_of_mem s _ hcur]
    split_ifs <;> simp [toolExit, setTool]
  obtain ⟨s0, h0, hc0⟩ := hg
  simp only [h0, Result.bind]
  obtain ⟨s1, h1, hc, hr, ht, _, hb⟩ :=
    initState_ok (clearLive { s0 with redostack := [], cmdstack := [] })
  refine ⟨s1, h1, ?_, ?_, ?_, ?_⟩
  · simpa [clearLive] using hc
  · simpa [clearLive] using hr
  · simpa [clearLive, hc0] using ht
  · simpa [clearLive] using hb

theorem lookup_cons_eq (a k : String) (v : Json) (rest : Fields) :
    List.lookup a ((k, v) :: rest) = if a = k then some v else List.lookup a rest := by
  by_cases h : a = k
  · subst h
    simp [List.lookup]
  · have hb : (a == k) = false := by simpa using h
    simp [List.lookup, hb, h]

theorem lookup_setField (o : Fields) (k a : String) (v : Json) :
    (setField o k v).lookup a = if a = k then some v else o.lookup a := by
  induction o with
  | nil =>
    simp only [setField, lookup_cons_eq]
  | cons p rest ih =>
    obtain ⟨k1, v1⟩ := p
    by_cases h1 : k1 = k
    · subst h1
      by_cases h : a = k1 <;> simp [setField, lookup_cons_eq, h]
    · by_cases h : a = k
      · subst h
        have h2 : ¬ a = k1 := fun e => h1 e.symm
        simp [setField, lookup_cons_eq, h1, h2, ih]
      · by_cases h2 : a = k1 <;> simp [setField, lookup_cons_eq, h1, h2, h, ih]

theorem lookup_eq_none_of_not_mem (src : Fields) (a : String)
    (h : a ∉ src.map Prod.fst) : src.lookup a = none := by
  induction src with
  | nil => rfl
  | cons p rest ih =>
    obtain ⟨k1, v1⟩ := p
    simp only [List.map_cons, List.mem_cons, not_or] at h
    simp [lookup_cons_eq, h.1, ih h.2]

theorem lookup_foldl_assign (src : Fields) (ks : List String) (acc : Fields) (a : String) :
    (ks.foldl
      (fun acc k =>
        match src.lookup k with
        | some v => setField acc k v
        | none => acc) acc).lookup a =
      if a ∈ ks then
        (match src.lookup a with
         | some v => some v
         | none => acc.lookup a)
      else acc.lookup a := by
  induction ks generalizing acc with
  | nil => simp
  | cons k ks ih =>
    simp only [List.foldl_cons, ih, List.mem_cons]
    by_cases hak : a = k
    · subst hak
      cases hs : src.lookup a with
      | none => simp
      | some v => simp [lookup_setField]
    · cases hs : src.lookup k with
      | none => simp [hak]
      | some v => simp [lookup_setField, hak]

theorem lookup_assignFields_nil (src : Fields) (a : String) :
    (assignFields [] src).lookup a = src.lookup a := by
  unfold assignFields
  rw [lookup_foldl_assign]
  by_cases h : a ∈ src.map Prod.fst
  · simp only [h, if_true]
    cases src.lookup a <;> simp [List.lookup]
  · simp only [h, if_false]
    rw [lookup_eq_none_of_not_mem src a h]
    rfl

theorem opsTable_isSome_of_mem (tag : String) (h : tag ∈ opsKeys) :
    ∃ cls, opsTable tag = some cls := by
  simp only [opsKeys, List.mem_cons, List.mem_singleton, List.not_mem_nil, or_false] at h
  rcases h with rfl | rfl | rfl | rfl | rfl <;> simp [opsTable]

theorem opsTable_eq_none_of_not_mem (tag : String) (h : tag ∉ opsKeys) :
    opsTable tag = none := by
  simp only [opsKeys, List.mem_cons, List.mem_singleton, List.not_mem_nil, or_false,
    not_or] at h
  simp [opsTable, h]

theorem ressurectAll_serialized (ops : List Op) (h : ∀ op ∈ ops, op.tool ∈ opsKeys) :
    ∃ ops1, ressurectAll (ops.map fun op => { tool := op.tool, fields := op.fields }) =
        some ops1 ∧ List.Forall₂ Rebuilt ops ops1 := by
  induction ops with
  | nil => exact ⟨[], rfl, List.Forall₂.nil⟩
  | cons op rest ih =>
    obtain ⟨ops1, h1, h2⟩ := ih (fun o ho => h o (List.mem_cons_of_mem _ ho))
    obtain ⟨cls, hcls⟩ := opsTable_isSome_of_mem op.tool (h op (List.mem_cons_self _ _))
    refine ⟨{ cls := cls, tool := op.tool, fields := assignFields [] op.fields } :: ops1,
      ?_, List.Forall₂.cons ⟨hcls, rfl, fun k => lookup_assignFields_nil _ _⟩ h2⟩
    simp [ressurectAll, ressurectOp, hcls, newOp, h1]

theorem ressurectAll_eq_none (arr : List DeadOp) (h : ∃ r ∈ arr, r.tool ∉ opsKeys) :
    ressurectAll arr = none := by
  induction arr with
  | nil => simp at h
  | cons r rest ih =>
    by_cases hr : r.tool ∈ opsKeys
    · obtain ⟨cls, hcls⟩ := opsTable_isSome_of_mem r.tool hr
      have hrest : ∃ r1 ∈ rest, r1.tool ∉ opsKeys := by
        obtain ⟨r1, hm, hn⟩ := h
        rcases List.mem_cons.mp hm with rfl | hm1
        · exact absurd hr hn
        · exact ⟨r1, hm1, hn⟩
      simp [ressurectAll, ressurectOp, hcls, ih hrest]
    · simp [ressurectAll, ressurectOp, opsTable_eq_none_of_not_mem _ hr]

theorem JSNum.ofNat_eq_fin (n : ℕ) [n.AtLeastTwo] :
    (OfNat.ofNat n : JSNum) = JSNum.fin (OfNat.ofNat n : ℚ) := by
  show JSNum.fin ((OfNat.ofNat n : ℕ) : ℚ) = _
  simp

theorem JSNum.div_fin (a b : ℚ) (ha : a ≠ 0) (hb : b ≠ 0) :
    (JSNum.fin a / JSNum.fin b : JSNum) = JSNum.fin (a / b) := by
  show JSNum.div _ _ = _
  simp [JSNum.div, ha, hb]

theorem JSNum.mul_fin (a b : ℚ) (ha : a ≠ 0) (hb : b ≠ 0) :
    (JSNum.fin a * JSNum.fin b : JSNum) = JSNum.fin (a * b) := by
  show JSNum.mul _ _ = _
  simp [JSNum.mul, ha, hb]

theorem JSNum.round_fin (q : ℚ) (m : ℤ) (h1 : (m : ℚ) ≤ q + 1 / 2) (h2 : q + 1 / 2 < m + 1)
    (hm : m ≠ 0) :
    JSNum.round (JSNum.fin q) = JSNum.fin m := by
  have : ⌊q + 1 / 2⌋ = m := Int.floor_eq_iff.mpr ⟨h1, h2⟩
  simp only [JSNum.round, this, hm, false_and, if_false]

theorem clamp50_le (n : JSNum) : JSNum.le (clamp50 n) 50 = true := by
  unfold clamp50
  by_cases h : JSNum.lt n 50 = true
  · simp only [h, if_true]
    rw [JSNum.ofNat_eq_fin] at h ⊢
    cases n with
    | fin q =>
      simp only [JSNum.lt, decide_eq_true_eq] at h
      simp [JSNum.le, le_of_lt h]
    | negZero => simp [JSNum.le]
    | posInf => simp [JSNum.lt] at h
    | negInf => simp [JSNum.le]
    | nan => simp [JSNum.lt] at h
  · simp only [h]
    rw [JSNum.ofNat_eq_fin]
    simp [JSNum.le]

/-- The sibling path of `initState`: called from the `symmUpdate` handler with
`gS.symmState` itself, `updateSymmetry` hands the clamped counts to
`generateTiling`. -/
theorem symmUpdate_tiling_clamped (s : State) (hdyn : s.dynamicGridSize = true)
    (hsym : s.symmState.sym ∈ TILINGSYMS) :
    ∃ s1 Nx Ny, symmUpdate s = .ok s1 ∧
      s1.affineset = .generateTiling s.symmState.sym Nx Ny s.symmState.d s.symmState.t
        s.symmState.x s.symmState.y ∧
      JSNum.le Nx 50 = true ∧ JSNum.le Ny 50 = true := by
  have hne : s.symmState.sym ≠ "none" := by
    rintro h
    rw [h] at hsym
    exact absurd hsym (by decide)
  have hrun : symmUpdate s = .ok
      { s with
        symmState := { s.symmState with
          Nx := clamp50 (JSNum.round ((s.CANVAS_WIDTH / s.symmState.d) * 2)),
          Ny := clamp50 (JSNum.round ((s.CANVAS_HEIGHT / s.symmState.d) * 2)) }
        affineset := .generateTiling s.symmState.sym
          (clamp50 (JSNum.round ((s.CANVAS_WIDTH / s.symmState.d) * 2)))
          (clamp50 (JSNum.round ((s.CANVAS_HEIGHT / s.symmState.d) * 2)))
          s.symmState.d s.symmState.t s.symmState.x s.symmState.y } := by
    simp [symmUpdate, updateSymmetry, hdyn, SymmRef.read, hne, hsym]
  exact ⟨_, _, _, hrun, rfl, clamp50_le _, clamp50_le _⟩

theorem JSNum.one_eq_fin : (1 : JSNum) = JSNum.fin 1 := by
  show JSNum.fin ((1 : ℕ) : ℚ) = _
  simp

theorem updateSymmetry_stored_counts (arg : SymmRef) (s : State)
    (hdyn : s.dynamicGridSize = true) :
    ∃ s1, updateSymmetry arg s = .ok s1 ∧
      s1.symmState.Nx = clamp50 (JSNum.round ((s.CANVAS_WIDTH / s.symmState.d) * 2)) ∧
      s1.symmState.Ny = clamp50 (JSNum.round ((s.CANVAS_HEIGHT / s.symmState.d) * 2)) := by
  unfold updateSymmetry
  simp only [hdyn, if_true]
  split_ifs <;> simp

theorem one_le_clamp50_fin (m : ℤ) :
    JSNum.le 1 (clamp50 (JSNum.fin (m : ℚ))) = true ↔ 1 ≤ m := by
  unfold clamp50
  rw [JSNum.one_eq_fin, JSNum.ofNat_eq_fin]
  by_cases hm : ((m : ℚ) < 50)
  · simp only [JSNum.lt, hm, decide_True, if_true, JSNum.le, decide_eq_true_eq]
    exact_mod_cast Iff.rfl
  · simp only [JSNum.lt, hm, decide_False, JSNum.le, decide_eq_true_eq]
    have h50 : (50 : ℚ) ≤ m := not_lt.mp hm
    have h50z : (50 : ℤ) ≤ m := by exact_mod_cast h50
    constructor
    · intro _
      omega
    · intro _
      norm_num

theorem one_le_clamp50_round_fin (q : ℚ) :
    JSNum.le 1 (clamp50 (JSNum.round (JSNum.fin q))) = true ↔ 1 ≤ ⌊q + 1 / 2⌋ := by
  by_cases h : ⌊q + 1 / 2⌋ = 0 ∧ q < 0
  · have hr : JSNum.round (JSNum.fin q) = JSNum.negZero := by
      simp only [JSNum.round, h, and_self, if_true]
    rw [hr]
    unfold clamp50
    rw [JSNum.one_eq_fin, JSNum.ofNat_eq_fin]
    simp only [JSNum.lt, JSNum.le, h.1]
    norm_num
  · have hr : JSNum.round (JSNum.fin q) = JSNum.fin ((⌊q + 1 / 2⌋ : ℤ) : ℚ) := by
      simp only [JSNum.round, h, if_false]
    rw [hr]
    exact one_le_clamp50_fin _

/-- The count stored for a canvas dimension `W > 0` and the negative zero as
spacing is minus infinity. -/
theorem stored_count_negZero (W : ℚ) (hW : 0 < W) :
    clamp50 (JSNum.round ((JSNum.fin W / JSNum.negZero) * 2)) = JSNum.negInf := by
  have hdiv : (JSNum.fin W / JSNum.negZero : JSNum) = JSNum.negInf := by
    show JSNum.div _ _ = _
    simp [JSNum.div, hW]
  have hmul : (JSNum.negInf * 2 : JSNum) = JSNum.negInf := by
    rw [JSNum.ofNat_eq_fin]
    show JSNum.mul _ _ = _
    simp [JSNum.mul]
  rw [hdiv, hmul]
  unfold clamp50
  rw [JSNum.ofNat_eq_fin]
  simp [JSNum.round, JSNum.lt]

/-- The count stored for a canvas dimension `W > 0` and a spacing `fin d`
(positive zero or a non-zero finite value) is at least 1 exactly when
`0 ≤ d ≤ 4 W`. -/
theorem one_le_stored_count_iff (W d : ℚ) (hW : 0 < W) :
    JSNum.le 1 (clamp50 (JSNum.round ((JSNum.fin W / JSNum.fin d) * 2))) = true ↔
      0 ≤ d ∧ d ≤ 4 * W := by
  by_cases hd : d = 0
  · subst hd
    have hdiv : (JSNum.fin W / JSNum.fin 0 : JSNum) = JSNum.posInf := by
      show JSNum.div _ _ = _
      simp [JSNum.div, hW]
    have hmul : (JSNum.posInf * 2 : JSNum) = JSNum.posInf := by
      rw [JSNum.ofNat_eq_fin]
      show JSNum.mul _ _ = _
      simp [JSNum.mul]
    rw [hdiv, hmul]
    have hc : clamp50 (JSNum.round JSNum.posInf) = JSNum.fin 50 := by
      unfold clamp50
      rw [JSNum.ofNat_eq_fin]
      simp [JSNum.round, JSNum.lt]
    rw [hc, JSNum.one_eq_fin]
    simp only [JSNum.le, decide_eq_true_eq]
    constructor
    · intro _
      exact ⟨le_refl _, by linarith⟩
    · intro _
      norm_num
  · have hWd : W / d ≠ 0 := div_ne_zero (ne_of_gt hW) hd
    rw [JSNum.ofNat_eq_fin 2, JSNum.div_fin _ _ (ne_of_gt hW) hd,
      JSNum.mul_fin _ _ hWd (by norm_num)]
    rw [one_le_clamp50_round_fin, Int.le_floor]
    rcases lt_or_gt_of_ne hd with hneg | hpos
    · have hq : W / d < 0 := div_neg_of_pos_of_neg hW hneg
      constructor
      · intro h
        push_cast at h
        linarith
      · intro h
        linarith [h.1]
    · have hq : W / d * d = W := div_mul_cancel₀ W hd
      constructor
      · intro h
        push_cast at h
        refine ⟨le_of_lt hpos, ?_⟩
        have h2 : (1 / 4) * d ≤ (W / d) * d := by
          apply mul_le_mul_of_nonneg_right _ (le_of_lt hpos)
          linarith
        linarith
      · intro h
        push_cast
        have h2 : 1 / 4 ≤ W / d := by
          rw [le_div_iff₀ hpos]
          linarith [h.2]
        linarith

theorem list_one_or_two_last (l : List Op) (h : 0 < l.length) :
    (∃ e, l = [e]) ∨ ∃ es em en, l = es ++ [em, en] := by
  rcases List.eq_nil_or_concat l with h0 | ⟨l1, en, h1⟩
  · subst h0
    simp at h
  · rcases List.eq_nil_or_concat l1 with h2 | ⟨es, em, h3⟩
    · left
      exact ⟨en, by simp [h1, h2]⟩
    · right
      exact ⟨es, em, en, by simp [h1, h3]⟩

/-- The run of `undo` when the forced commit leaves one entry. -/
theorem undo_run_one (s : State) (hcur : s.curTool ∈ drawToolKeys)
    (htools : ToolsComplete s) (hfloor : s.undo_init_bound < s.cmdstack.length)
    (e : Op) (he : effective s = [e]) :
    ∃ s1, undo s = .ok s1 ∧
      s1.redostack = s.redostack ++ [e] ∧ s1.cmdstack = [] ∧
      s1.curTool = s.curTool ∧ inProgress s1 = none ∧
      ∀ k, (s1.tools k).hasEnter = (s.tools k).hasEnter ∧
           (s1.tools k).hasExit = (s.tools k).hasExit := by
  have hc : (toolCommit s.curTool s).cmdstack = effective s := toolCommit_cmdstack _ _
  simp only [undo, hfloor, if_true, callCommit, drawTools_of_mem s _ hcur, Result.bind, hc,
    he]
  simp [callExit, drawTools, hcur, toolCommit_curTool, toolCommit_tools, (htools _ hcur).2,
    Result.bind, clearLive, rerender, toolExit, setTool, inProgress, toolCommit_redostack]
  intro k
  split_ifs with hk <;> simp [hk, (htools _ hcur).2]

/-- The run of `undo` when the forced commit leaves two entries or more. -/
theorem undo_run_two (s : State) (hcur : s.curTool ∈ drawToolKeys)
    (htools : ToolsComplete s) (hfloor : s.undo_init_bound < s.cmdstack.length)
    (es : List Op) (em en : Op) (he : effective s = es ++ [em, en])
    (hem : em.tool ∈ drawToolKeys) :
    ∃ s1, undo s = .ok s1 ∧
      s1.redostack = s.redostack ++ [en] ∧ s1.cmdstack = es ∧
      s1.curTool = em.tool ∧ inProgress s1 = some em ∧
      ∀ k, (s1.tools k).hasEnter = (s.tools k).hasEnter ∧
           (s1.tools k).hasExit = (s.tools k).hasExit := by
  have hc : (toolCommit s.curTool s).cmdstack = effective s := toolCommit_cmdstack _ _
  have he2 : effective s = (es ++ [em]) ++ [en] := by simp [he]
  simp only [undo, hfloor, if_true, callCommit, drawTools_of_mem s _ hcur, Result.bind, hc,
    he2, List.getLast?_concat, List.dropLast_concat]
  by_cases hq : em.tool = s.curTool
  · simp [switchTool, guardedExit, guardedEnter, drawTools, hcur, hem, rerender,
      toolCommit_curTool, toolCommit_tools, (htools _ hcur).2, (htools _ hcur).1,
      (htools _ hem).1, Result.bind, toolExit, toolEnter, setTool, inProgress,
      toolCommit_redostack, hq]
    intro k
    split_ifs with hk <;> simp [hk, (htools _ hcur).2, (htools _ hcur).1]
  · simp [switchTool, guardedExit, guardedEnter, drawTools, hcur, hem, rerender,
      toolCommit_curTool, toolCommit_tools, (htools _ hcur).2, (htools _ hcur).1,
      (htools _ hem).1, Result.bind, toolExit, toolEnter, setTool, inProgress,
      toolCommit_redostack, hq]
    intro k
    split_ifs <;>
    simp [*, (htools _ hcur).2, (htools _ hcur).1, (htools _ hem).1, (htools _ hem).2]

/-- The run of `redo` on a redo stack with `r` on top. -/
theorem redo_run (s : State) (hcur : s.curTool ∈ drawToolKeys)
    (htools : ToolsComplete s) (rest : List Op) (r : Op)
    (hr : s.redostack = rest ++ [r]) (hrt : r.tool ∈ drawToolKeys) :
    ∃ s1, redo s = .ok s1 ∧
      s1.redostack = rest ∧ s1.cmdstack = effective s ∧
      s1.curTool = r.tool ∧ inProgress s1 = some r := by
  have hpos : 0 < s.redostack.length := by simp [hr]
  simp only [redo, hpos, if_true, callCommit, drawTools_of_mem s _ hcur, Result.bind,
    toolCommit_redostack, hr, List.getLast?_concat, List.dropLast_concat]
  by_cases hq : r.tool = s.curTool <;>
  simp [switchTool, guardedExit, guardedEnter, drawTools, hcur, hrt, rerender,
    toolCommit_curTool, toolCommit_tools, (htools _ hcur).2, (htools _ hcur).1,
    (htools _ hrt).1, Result.bind, toolExit, toolEnter, setTool, inProgress,
    toolCommit_cmdstack, effective, hq]

/-- The run of `undo` when the history is not longer than the floor. -/
theorem undo_run_at_floor (s : State) (hcur : s.curTool ∈ drawToolKeys)
    (htools : ToolsComplete s) (hfloor : ¬ s.undo_init_bound < s.cmdstack.length) :
    ∃ s1, undo s = .ok s1 ∧
      s1.cmdstack = s.cmdstack ∧ s1.redostack = s.redostack ∧
      s1.curTool = s.curTool ∧ inProgress s1 = none := by
  simp [undo, hfloor, callExit, drawTools, hcur, (htools _ hcur).2, Result.bind, clearLive,
    toolExit, setTool, inProgress]

theorem wellFormed_stateFloor : WellFormed stateFloor := by
  refine ⟨by decide, ?_, ?_, ?_, ?_⟩
  · intro k _
    simp [stateFloor, stateAB, state0, idleTool]
  · intro op hop
    simp [stateFloor, stateAB, state0] at hop
    rcases hop with rfl | rfl <;> decide
  · intro op hop
    simp [stateFloor, stateAB, state0] at hop
  · intro k _ op hop
    simp [stateFloor, stateAB, state0, idleTool] at hop

/-- The negative zero as spacing on the 1600 by 1200 canvas: both stored
counts are minus infinity. -/
theorem updateSymmetry_negZero_spacing :
    ∃ s1, updateSymmetry .global stateNegZeroD = .ok s1 ∧
      s1.symmState.Nx = JSNum.negInf ∧ s1.symmState.Ny = JSNum.negInf := by
  obtain ⟨s1, h, hx, hy⟩ := updateSymmetry_stored_counts .global stateNegZeroD rfl
  refine ⟨s1, h, ?_, ?_⟩
  · rw [hx]
    simp only [stateNegZeroD, state0, symm0, JSNum.ofNat_eq_fin 1600]
    exact stored_count_negZero 1600 (by norm_num)
  · rw [hy]
    simp only [stateNegZeroD, state0, symm0, JSNum.ofNat_eq_fin 1200]
    exact stored_count_negZero 1200 (by norm_num)

/-! ## The claims -/

/-- C8: `commitOp(op)` appends `op` as the last entry of the history, renders
it once on the persistent surface (the one call added to the log), and leaves
the redo stack and everything else as it was, in every state, hence also in a
state reached by an undo. -/
theorem commitOp_appends_keeps_redo (op : Op) (s : State) :
    (commitOp op s).cmdstack = s.cmdstack ++ [op] ∧
    (commitOp op s).cmdstack.length = s.cmdstack.length + 1 ∧
    (commitOp op s).cmdstack.take s.cmdstack.length = s.cmdstack ∧
    (commitOp op s).log = s.log ++ [Effect.render op] ∧
    (commitOp op s).redostack = s.redostack ∧
    (commitOp op s).undo_init_bound = s.undo_init_bound ∧
    (commitOp op s).curTool = s.curTool ∧
    (commitOp op s).tools = s.tools ∧
    (∀ s1, undo s = .ok s1 → (commitOp op s1).redostack = s1.redostack) := by
  simp [commitOp]

/-- C1: `undo()` above the floor.  With e1..en the history after the forced
commit: the redo stack gains en on top; for n = 1 the history is empty, the
active tool has been exited and holds no operation; for n >= 2 the history is
e1..e(n-2), the active tool is the one named by e(n-1), and it has been entered
with e(n-1) as the operation to resume. -/
theorem undo_above_floor (s : State) (hwf : WellFormed s)
    (hfloor : s.undo_init_bound < s.cmdstack.length) :
    (∀ e, effective s = [e] →
      ∃ s1, undo s = .ok s1 ∧
        s1.redostack = s.redostack ++ [e] ∧
        s1.cmdstack = [] ∧
        s1.curTool = s.curTool ∧
        inProgress s1 = none ∧
        s1.log = s.log ++ [Effect.toolCommit s.curTool, Effect.toolExit s.curTool,
                           Effect.clearCanvas, Effect.clearLive]) ∧
    (∀ es em en, effective s = es ++ [em, en] →
      ∃ s1, undo s = .ok s1 ∧
        s1.redostack = s.redostack ++ [en] ∧
        s1.cmdstack = es ∧
        s1.curTool = em.tool ∧
        inProgress s1 = some em ∧
        s1.log = s.log ++ Effect.toolCommit s.curTool ::
                   (inProgress s).toList.map Effect.render ++
                   Effect.clearCanvas :: es.map Effect.render ++
                   [Effect.toolExit s.curTool, Effect.toolEnter em.tool (some em)]) := by
  obtain ⟨hcur, htools, hcmd, _, hlive⟩ := hwf
  have hc : (toolCommit s.curTool s).cmdstack = effective s := toolCommit_cmdstack _ _
  constructor
  · intro e he
    have hnone : inProgress s = none := by
      unfold effective at he
      cases hl : inProgress s with
      | none => rfl
      | some op =>
        rw [hl] at he
        have := congrArg List.length he
        simp only [List.length_append, Option.toList, List.length_singleton] at this
        omega
    simp only [undo, hfloor, if_true, callCommit, drawTools_of_mem s _ hcur, Result.bind, hc,
      he]
    unfold inProgress at hnone
    simp [callExit, drawTools, hcur, toolCommit_curTool, toolCommit_tools, (htools _ hcur).2,
      Result.bind, clearLive, rerender, toolExit, setTool, inProgress, toolCommit_redostack,
      toolCommit_log, hnone]
  · intro es em en he
    have hem : em.tool ∈ drawToolKeys := by
      have hmem : em ∈ effective s := by rw [he]; simp
      unfold effective at hmem
      rcases List.mem_append.mp hmem with h | h
      · exact hcmd _ h
      · exact hlive _ hcur em (by simpa [inProgress] using h)
    have he2 : effective s = (es ++ [em]) ++ [en] := by simp [he]
    simp only [undo, hfloor, if_true, callCommit, drawTools_of_mem s _ hcur, Result.bind, hc,
      he2, List.getLast?_concat, List.dropLast_concat]
    by_cases hq : em.tool = s.curTool <;>
    simp [switchTool, guardedExit, guardedEnter, drawTools, hcur, hem, rerender,
      toolCommit_curTool, toolCommit_tools, (htools _ hcur).2, (htools _ hcur).1,
      (htools _ hem).1, Result.bind, toolExit, toolEnter, setTool, inProgress,
      toolCommit_redostack, toolCommit_log, hq]

theorem wellFormed_statePoly : WellFormed statePoly := by
  refine ⟨by decide, ?_, ?_, ?_, ?_⟩
  · intro k _
    by_cases hk : k = "poly" <;> simp [statePoly, idleTool, hk]
  · intro op hop
    simp [statePoly, state0] at hop
    rcases hop with rfl | rfl <;> decide
  · intro op hop
    simp [statePoly, state0] at hop
  · intro k _ op hop
    by_cases hk : k = "poly"
    · simp [statePoly, idleTool, hk] at hop
      subst hop
      decide
    · simp [statePoly, idleTool, hk] at hop

theorem wellFormed_stateRedo : WellFormed stateRedo := by
  refine ⟨by decide, ?_, ?_, ?_, ?_⟩
  · intro k _
    simp [stateRedo, state0, idleTool]
  · intro op hop
    simp [stateRedo, state0] at hop
    subst hop
    decide
  · intro op hop
    simp [stateRedo, state0] at hop
    rcases hop with rfl | rfl <;> decide
  · intro k _ op hop
    simp [stateRedo, state0, idleTool] at hop

/-- Witness of C1: with the line and the circle committed and the polygon in
progress, undo moves the polygon to the redo stack, leaves the line as the
whole history and resumes the circle in the circle tool. -/
theorem undo_above_floor_witness :
    WellFormed statePoly ∧ statePoly.undo_init_bound < statePoly.cmdstack.length ∧
    ∃ s1, undo statePoly = .ok s1 ∧ s1.redostack = [opC] ∧ s1.cmdstack = [opA] ∧
      s1.curTool = "circle" ∧ inProgress s1 = some opB :=
  ⟨wellFormed_statePoly, by decide,
    let ⟨s1, h1, h2, h3, h4, h5, _⟩ :=
      (undo_above_floor statePoly wellFormed_statePoly (by decide)).2 [opA] opB opC
        (by simp [effective, inProgress, statePoly, state0])
    ⟨s1, h1, h2, h3, h4, h5⟩⟩

/-- C2: `redo()` with a non-empty redo stack.  The active tool commits first;
then the top entry r of the redo stack, the one undone last, is removed and the
entries under it stay as they were; the history is what the forced commit left
(r is not appended); the active tool is the one named by r, entered with r as
the operation to resume. -/
theorem redo_nonempty (s : State) (hwf : WellFormed s) (rest : List Op) (r : Op)
    (hr : s.redostack = rest ++ [r]) :
    ∃ s1, redo s = .ok s1 ∧
      s1.redostack = rest ∧
      s1.cmdstack = effective s ∧
      s1.curTool = r.tool ∧
      inProgress s1 = some r ∧
      s1.log = s.log ++ Effect.toolCommit s.curTool ::
                 (inProgress s).toList.map Effect.render ++
                 Effect.clearCanvas :: (effective s).map Effect.render ++
                 [Effect.toolExit s.curTool, Effect.toolEnter r.tool (some r)] := by
  obtain ⟨hcur, htools, _, hredo, _⟩ := hwf
  have hrt : r.tool ∈ drawToolKeys := hredo r (by simp [hr])
  have hpos : 0 < s.redostack.length := by simp [hr]
  simp only [redo, hpos, if_true, callCommit, drawTools_of_mem s _ hcur, Result.bind,
    toolCommit_redostack, hr, List.getLast?_concat, List.dropLast_concat]
  by_cases hq : r.tool = s.curTool <;>
  simp [switchTool, guardedExit, guardedEnter, drawTools, hcur, hrt, rerender,
    toolCommit_curTool, toolCommit_tools, (htools _ hcur).2, (htools _ hcur).1,
    (htools _ hrt).1, Result.bind, toolExit, toolEnter, setTool, inProgress,
    toolCommit_cmdstack, toolCommit_log, effective, hq]

/-- Witness of C2: with the circle on top of the redo stack and the polygon
under it, redo takes the circle, leaves the polygon, and resumes the circle in
the circle tool; the history is still the line alone. -/
theorem redo_nonempty_witness :
    WellFormed stateRedo ∧ stateRedo.redostack = [opC] ++ [opB] ∧
    ∃ s1, redo stateRedo = .ok s1 ∧ s1.redostack = [opC] ∧ s1.cmdstack = [opA] ∧
      s1.curTool = "circle" ∧ inProgress s1 = some opB :=
  ⟨wellFormed_stateRedo, rfl,
    let ⟨s1, h1, h2, h3, h4, h5, _⟩ :=
      redo_nonempty stateRedo wellFormed_stateRedo [opC] opB rfl
    ⟨s1, h1, h2, by simpa [effective, inProgress, stateRedo, state0, idleTool] using h3,
      h4, h5⟩⟩

/-- C3, the claim refuted: with floor 1, history [line, circle] and nothing in
progress, `undo()` pops the circle onto the redo stack and then pops the line
as well, to resume it: the history is left with 0 entries, fewer than the
floor, and its first entry is no longer in it (the line tool holds it). -/
theorem undo_descends_below_floor :
    stateFloor.undo_init_bound = 1 ∧ stateFloor.cmdstack = [opA, opB] ∧
    inProgress stateFloor = none ∧
    ∃ s1, undo stateFloor = .ok s1 ∧
      s1.cmdstack = [] ∧
      s1.cmdstack.length < s1.undo_init_bound ∧
      s1.cmdstack.take 1 ≠ stateFloor.cmdstack.take 1 ∧
      s1.redostack = [opB] ∧
      s1.curTool = "line" ∧
      inProgress s1 = some opA := by
  refine ⟨rfl, rfl, rfl, ?_⟩
  simp [undo, stateFloor, stateAB, state0, callCommit, drawTools, drawToolKeys, toolCommit,
    idleTool, Result.bind, switchTool, guardedExit, guardedEnter, rerender, toolExit,
    toolEnter, setTool, inProgress, opA, opB]

/-- C3 as amended: the floor holds for the history followed by the operation
in resume mode.  For every well-formed state with floor f and a history of
length n >= f, `undo()` returns normally; afterwards the history followed by
the in-progress operation has at least f entries, its first f entries are the
first f entries of the old history in the same order, and the history alone has
at least f - 1 entries (the entry at the floor may have been popped and handed
to its tool); when n = f neither the history nor the redo stack is changed. -/
theorem undo_floor_on_effective (s : State) (hwf : WellFormed s)
    (hn : s.undo_init_bound ≤ s.cmdstack.length) :
    ∃ s1, undo s = .ok s1 ∧
      s.undo_init_bound ≤ (effective s1).length ∧
      (effective s1).take s.undo_init_bound = s.cmdstack.take s.undo_init_bound ∧
      s.undo_init_bound ≤ s1.cmdstack.length + 1 ∧
      (s.cmdstack.length = s.undo_init_bound →
        s1.cmdstack = s.cmdstack ∧ s1.redostack = s.redostack) := by
  obtain ⟨hcur, htools, hcmd, _, hlive⟩ := hwf
  by_cases hfloor : s.undo_init_bound < s.cmdstack.length
  · have hmem : ∀ op ∈ effective s, op.tool ∈ drawToolKeys := by
      intro op hop
      unfold effective at hop
      rcases List.mem_append.mp hop with h | h
      · exact hcmd _ h
      · exact hlive _ hcur op (by simpa [inProgress] using h)
    have hlenL : s.cmdstack.length ≤ (effective s).length := by
      unfold effective
      rw [List.length_append]
      omega
    have hprefix : (effective s).take s.undo_init_bound =
        s.cmdstack.take s.undo_init_bound := by
      unfold effective
      exact List.take_append_of_le_length hn
    rcases list_one_or_two_last (effective s) (by omega) with ⟨e, he⟩ | ⟨es, em, en, he⟩
    · obtain ⟨s1, hu, _, hc1, _, hp1, _⟩ := undo_run_one s hcur htools hfloor e he
      have h1 : (effective s).length = 1 := by rw [he]; rfl
      have hf0 : s.undo_init_bound = 0 := by omega
      refine ⟨s1, hu, ?_, ?_, ?_, ?_⟩
      · omega
      · simp [hf0]
      · omega
      · intro h
        omega
    · have hemt : em.tool ∈ drawToolKeys := hmem em (by simp [he])
      obtain ⟨s1, hu, _, hc1, _, hp1, _⟩ :=
        undo_run_two s hcur htools hfloor es em en he hemt
      have hL : (effective s).length = es.length + 2 := by rw [he]; simp
      have he1 : effective s1 = es ++ [em] := by simp [effective, hc1, hp1]
      have he2 : effective s = (es ++ [em]) ++ [en] := by simp [he]
      refine ⟨s1, hu, ?_, ?_, ?_, ?_⟩
      · rw [he1]
        simp only [List.length_append, List.length_singleton]
        omega
      · rw [← hprefix, he2, he1]
        refine (List.take_append_of_le_length ?_).symm
        simp only [List.length_append, List.length_singleton]
        omega
      · rw [hc1]
        omega
      · intro h
        omega
  · obtain ⟨s1, hu, hc1, hr1, _, hp1⟩ := undo_run_at_floor s hcur htools hfloor
    have he1 : effective s1 = s.cmdstack := by simp [effective, hc1, hp1]
    refine ⟨s1, hu, ?_, ?_, ?_, ?_⟩
    · rw [he1]
      exact hn
    · rw [he1]
    · rw [hc1]
      omega
    · intro _
      exact ⟨hc1, hr1⟩

/-- Witness of C3 as amended: with floor 1 and history [line, circle], after
`undo()` the history followed by the resumed operation still starts with the
line. -/
theorem undo_floor_on_effective_witness :
    WellFormed stateFloor ∧ stateFloor.undo_init_bound ≤ stateFloor.cmdstack.length ∧
    ∃ s1, undo stateFloor = .ok s1 ∧
      1 ≤ (effective s1).length ∧ (effective s1).take 1 = [opA] :=
  let ⟨s1, h1, h2, h3, _⟩ :=
    undo_floor_on_effective stateFloor wellFormed_stateFloor (by decide)
  ⟨wellFormed_stateFloor, by decide, s1, h1, h2, h3⟩

/-- C4: the code at the floor with an operation in resume mode.  From the
history [line, circle] a first `undo()` leaves the history empty and the line
in resume mode; a second `undo()` then calls `exit` and clears the live surface
and nothing else: no `commit`, and the line is neither in the history nor on
the redo stack nor in progress. -/
theorem undo_at_floor_drops_resumed :
    ∃ s1 s2, undo stateAB = .ok s1 ∧
      s1.cmdstack = [] ∧ s1.redostack = [opB] ∧ s1.curTool = "line" ∧
      inProgress s1 = some opA ∧
      undo s1 = .ok s2 ∧
      s2.cmdstack = [] ∧ s2.redostack = [opB] ∧ inProgress s2 = none ∧
      s2.log = s1.log ++ [Effect.toolExit "line", Effect.clearLive] := by
  simp [undo, stateAB, state0, callCommit, callExit, drawTools, drawToolKeys, toolCommit,
    idleTool, Result.bind, switchTool, guardedExit, guardedEnter, rerender, clearLive,
    toolExit, toolEnter, setTool, inProgress, opA, opB]

/-- C5: the code on empty stacks with an active tool that has no `exit`.
`undo()` calls `exit` without testing for it and raises, in the state it
started in; `redo()` returns and changes nothing; `changeTool`, `switchTool`
and `reset` test for `exit` and do not raise in the same state. -/
theorem undo_raises_without_exit :
    stateNoExit.cmdstack = [] ∧ stateNoExit.redostack = [] ∧
    (drawTools stateNoExit stateNoExit.curTool).map Tool.hasExit = some false ∧
    undo stateNoExit = .error .typeError stateNoExit ∧
    redo stateNoExit = .ok stateNoExit ∧
    (changeTool "line" stateNoExit).isError = false ∧
    (switchTool "line" opA stateNoExit).isError = false ∧
    (reset stateNoExit).isError = false := by
  refine ⟨rfl, rfl, ?_, ?_, ?_, ?_, ?_, ?_⟩
  · simp [drawTools, drawToolKeys, stateNoExit, state0]
  · simp [undo, stateNoExit, state0, callExit, drawTools, drawToolKeys, Result.bind]
  · simp [redo, stateNoExit, state0]
  · simp [changeTool, stateNoExit, state0, callCommit, guardedExit, guardedEnter, drawTools,
      drawToolKeys, toolCommit, Result.bind, idleTool, Result.isError]
  · simp [switchTool, stateNoExit, state0, guardedExit, guardedEnter, drawTools,
      drawToolKeys, Result.bind, idleTool, Result.isError]
  · obtain ⟨s1, h1, _⟩ := reset_ok stateNoExit (by decide)
    simp [h1, Result.isError]

/-- C7: saving and loading back.  For a history whose entries all carry a tag
of `opsTable`, `deserialize(serialize())` returns normally with a history of
the same length whose i-th entry is of the class selected by the i-th tag,
carries that tag, and has the same value as the original under every property
name. -/
theorem deserialize_serialize_round_trip (s : State) (hcur : s.curTool ∈ drawToolKeys)
    (htags : ∀ op ∈ s.cmdstack, op.tool ∈ opsKeys) :
    ∃ s1, deserialize (serialize s) s = .ok s1 ∧
      s1.cmdstack.length = s.cmdstack.length ∧
      List.Forall₂ Rebuilt s.cmdstack s1.cmdstack := by
  obtain ⟨s0, h0, _⟩ := reset_ok s hcur
  obtain ⟨ops1, h1, h2⟩ := ressurectAll_serialized s.cmdstack htags
  refine ⟨rerender { s0 with cmdstack := ops1 }, ?_, ?_, ?_⟩
  · simp [deserialize, serialize, h0, h1, Result.bind]
  · simpa [rerender] using h2.length_eq.symm
  · simpa [rerender] using h2

/-- Witness of C7: the history [line, circle] saved and loaded back. -/
theorem deserialize_serialize_round_trip_witness :
    stateAB.curTool ∈ drawToolKeys ∧ (∀ op ∈ stateAB.cmdstack, op.tool ∈ opsKeys) ∧
    ∃ s1, deserialize (serialize stateAB) stateAB = .ok s1 ∧
      s1.cmdstack.length = 2 ∧ List.Forall₂ Rebuilt [opA, opB] s1.cmdstack :=
  have h : ∀ op ∈ stateAB.cmdstack, op.tool ∈ opsKeys := by
    intro op hop
    simp [stateAB, state0] at hop
    rcases hop with rfl | rfl <;> decide
  ⟨by decide, h, deserialize_serialize_round_trip stateAB (by decide) h⟩

/-- C6, the claim refuted: with the line as the history, loading a file whose
second record is tagged `eraser` does not end in an error with the history
still in place. -/
theorem deserialize_bad_tag_loses_history :
    ¬ ∃ e s1, deserialize badFile stateA = .error e s1 ∧ s1.cmdstack = stateA.cmdstack := by
  rintro ⟨e, s1, h, hc⟩
  obtain ⟨s0, h0, hc0, _⟩ := reset_ok stateA (by decide)
  have hbad : ressurectAll badFile = none :=
    ressurectAll_eq_none badFile ⟨_, List.mem_cons_of_mem _ (List.mem_cons_self _ _), by decide⟩
  simp only [deserialize, h0, Result.bind, hbad, Result.error.injEq] at h
  rw [← h.2, hc0] at hc
  simp [stateA] at hc

/-- C6 as amended: for every state whose active tool is a key of `drawTools`
and every file with at least one record whose tag is not one of line, pencil,
circle, bezier, poly (and none tagged `constructor`, the one name that the
table inherits and `new` accepts, which the embedding of `opsTable` leaves
out), `deserialize` raises, and by then `reset()` has emptied the history and
the redo stack: whatever the history was, it is empty afterwards. -/
theorem deserialize_bad_tag_resets (s : State) (arr : List DeadOp)
    (hcur : s.curTool ∈ drawToolKeys)
    (hbad : ∃ r ∈ arr, r.tool ∉ opsKeys)
    (_hctor : ∀ r ∈ arr, r.tool ≠ "constructor") :
    ∃ s1, deserialize arr s = .error .typeError s1 ∧
      s1.cmdstack = [] ∧ s1.redostack = [] := by
  obtain ⟨s0, h0, hc0, hr0, _⟩ := reset_ok s hcur
  exact ⟨s0, by simp [deserialize, h0, Result.bind, ressurectAll_eq_none arr hbad], hc0, hr0⟩

/-- Witness of C6 as amended: the file with the `eraser` record loaded over the
history [line]. -/
theorem deserialize_bad_tag_resets_witness :
    stateA.curTool ∈ drawToolKeys ∧ (∃ r ∈ badFile, r.tool ∉ opsKeys) ∧
    (∀ r ∈ badFile, r.tool ≠ "constructor") ∧ stateA.cmdstack = [opA] ∧
    ∃ s1, deserialize badFile stateA = .error .typeError s1 ∧
      s1.cmdstack = [] ∧ s1.redostack = [] :=
  have hbad : ∃ r ∈ badFile, r.tool ∉ opsKeys :=
    ⟨_, List.mem_cons_of_mem _ (List.mem_cons_self _ _), by decide⟩
  have hctor : ∀ r ∈ badFile, r.tool ≠ "constructor" := by
    intro r hr
    simp [badFile] at hr
    rcases hr with rfl | rfl <;> decide
  ⟨by decide, hbad, hctor, rfl, deserialize_bad_tag_resets stateA badFile (by decide) hbad hctor⟩

/-- C9, the claim refuted: for the name `p7`, which is neither `none` nor
`rosette` nor in `TILINGSYMS`, `updateSymmetry` does not raise: it installs the
rosette set built from the other properties of its argument. -/
theorem updateSymmetry_unknown_name_no_error :
    symmUnknown.sym ≠ "none" ∧ symmUnknown.sym ≠ "rosette" ∧ symmUnknown.sym ∉ TILINGSYMS ∧
    (updateSymmetry (.detached symmUnknown) state0).isError = false ∧
    (updateSymmetry (.detached symmUnknown) state0).state.affineset =
      .RosetteGroup 3 2 800 400 0 := by
  refine ⟨by decide, by decide, by decide, ?_, ?_⟩ <;>
  simp [updateSymmetry, symmUnknown, symm0, state0, SymmRef.read, TILINGSYMS, Result.isError,
    Result.state]

/-- C9 as amended: for every argument whose `sym` is not `none` and not a name
of `TILINGSYMS` (the name `rosette` and every unknown name alike),
`updateSymmetry` returns normally and installs as the active set the rosette
built from the `Nrot`, `Nref`, `x`, `y` and `rot` of the argument. -/
theorem updateSymmetry_other_name_rosette (arg : SymmRef) (s : State)
    (hnone : (arg.read s).sym ≠ "none") (htiling : (arg.read s).sym ∉ TILINGSYMS) :
    ∃ s1, updateSymmetry arg s = .ok s1 ∧
      s1.affineset = .RosetteGroup (arg.read s).Nrot (arg.read s).Nref (arg.read s).x
        (arg.read s).y (arg.read s).rot := by
  cases arg with
  | global =>
    simp only [SymmRef.read] at hnone htiling
    by_cases hd : s.dynamicGridSize = true <;>
    simp [updateSymmetry, SymmRef.read, hd, hnone, htiling]
  | detached c =>
    simp only [SymmRef.read] at hnone htiling
    by_cases hd : s.dynamicGridSize = true <;>
    simp [updateSymmetry, SymmRef.read, hd, hnone, htiling]

/-- Witness of C9 as amended: the global symmetry state with the name
`kaleidoscope`. -/
theorem updateSymmetry_other_name_rosette_witness :
    (SymmRef.global.read stateUnknown).sym ≠ "none" ∧
    (SymmRef.global.read stateUnknown).sym ∉ TILINGSYMS ∧
    ∃ s1, updateSymmetry .global stateUnknown = .ok s1 ∧
      s1.affineset = .RosetteGroup 3 2 800 400 0 :=
  ⟨by decide, by decide,
    updateSymmetry_other_name_rosette .global stateUnknown (by decide) (by decide)⟩

/-- C10: the code at start-up on a 3840 by 2160 window.  `initState` stores the
counts 77 and 43 in `gS.symmState` and passes a copy of it to `updateSymmetry`,
which clamps the counts of `gS.symmState` to 50 and 43 and calls
`generateTiling` with the counts of the copy: 77 and 43. -/
theorem initState_passes_unclamped_Nx :
    stateWide.dynamicGridSize = true ∧ stateWide.symmState.sym ∈ TILINGSYMS ∧
    ∃ s1, initState stateWide = .ok s1 ∧
      s1.affineset = .generateTiling "p6m" 77 43 100 0 1920 1080 ∧
      JSNum.le 77 50 = false ∧
      s1.symmState.Nx = 50 ∧ s1.symmState.Ny = 43 := by
  have hx : JSNum.round (JSNum.fin (3840 / 2)) = JSNum.fin 1920 :=
    JSNum.round_fin _ 1920 (by norm_num) (by norm_num) (by norm_num)
  have hy : JSNum.round (JSNum.fin (2160 / 2)) = JSNum.fin 1080 :=
    JSNum.round_fin _ 1080 (by norm_num) (by norm_num) (by norm_num)
  have hNx : JSNum.round (JSNum.fin (3840 / 100 * 2)) = JSNum.fin 77 :=
    JSNum.round_fin _ 77 (by norm_num) (by norm_num) (by norm_num)
  have hNy : JSNum.round (JSNum.fin (2160 / 100 * 2)) = JSNum.fin 43 :=
    JSNum.round_fin _ 43 (by norm_num) (by norm_num) (by norm_num)
  refine ⟨rfl, by decide, ?_⟩
  simp [initState, updateSymmetry, stateWide, state0, symm0, SymmRef.read, TILINGSYMS,
    Result.bind, rerender, clamp50, JSNum.ofNat_eq_fin, JSNum.div_fin, JSNum.mul_fin,
    hx, hy, hNx, hNy, JSNum.lt, JSNum.le]
  norm_num

/-- C11, the claim refuted: with dynamic grid sizing on, a 1600 by 1200 canvas
and the spacing -100, `updateSymmetry` stores the counts -32 and -24, both
below 1. -/
theorem updateSymmetry_negative_spacing_counts :
    stateNegD.dynamicGridSize = true ∧ stateNegD.symmState.d = JSNum.fin (-100) ∧
    ∃ s1, updateSymmetry .global stateNegD = .ok s1 ∧
      s1.symmState.Nx = JSNum.fin (-32) ∧ s1.symmState.Ny = JSNum.fin (-24) ∧
      JSNum.le 1 s1.symmState.Nx = false ∧ JSNum.le 1 s1.symmState.Ny = false := by
  have hNx : JSNum.round (JSNum.fin (1600 / (-100) * 2)) = JSNum.fin ((-32 : ℤ) : ℚ) :=
    JSNum.round_fin _ (-32) (by norm_num) (by norm_num) (by norm_num)
  have hNy : JSNum.round (JSNum.fin (1200 / (-100) * 2)) = JSNum.fin ((-24 : ℤ) : ℚ) :=
    JSNum.round_fin _ (-24) (by norm_num) (by norm_num) (by norm_num)
  obtain ⟨s1, h, hx, hy⟩ := updateSymmetry_stored_counts .global stateNegD rfl
  have hx1 : s1.symmState.Nx = JSNum.fin (-32) := by
    rw [hx]
    simp only [stateNegD, state0, symm0, JSNum.ofNat_eq_fin]
    rw [JSNum.div_fin _ _ (by norm_num) (by norm_num),
      JSNum.mul_fin _ _ (by norm_num) (by norm_num), hNx]
    norm_num [clamp50, JSNum.ofNat_eq_fin, JSNum.lt]
  have hy1 : s1.symmState.Ny = JSNum.fin (-24) := by
    rw [hy]
    simp only [stateNegD, state0, symm0, JSNum.ofNat_eq_fin]
    rw [JSNum.div_fin _ _ (by norm_num) (by norm_num),
      JSNum.mul_fin _ _ (by norm_num) (by norm_num), hNy]
    norm_num [clamp50, JSNum.ofNat_eq_fin, JSNum.lt]
  refine ⟨rfl, rfl, s1, h, hx1, hy1, ?_, ?_⟩
  · rw [hx1, JSNum.one_eq_fin]
    norm_num [JSNum.le]
  · rw [hy1, JSNum.one_eq_fin]
    norm_num [JSNum.le]

/-- C11 as amended: with dynamic grid sizing on and a canvas of positive width
`W` and height `H`, `updateSymmetry` returns normally and the counts it stores
are capped at 50 but have no lower clamp.  For a spacing `d` that is the
positive zero or a non-zero finite number, the stored `Nx` is at least 1
exactly when `0 ≤ d ≤ 4 W` and the stored `Ny` exactly when `0 ≤ d ≤ 4 H`
(a spacing between twice and four times the dimension included; a negative
spacing or one above four times the dimension gives a count below 1).  For the
negative zero as spacing both stored counts are minus infinity. -/
theorem updateSymmetry_counts_lower_bound (arg : SymmRef) (s : State) (W H : ℚ)
    (hdyn : s.dynamicGridSize = true)
    (hW : s.CANVAS_WIDTH = JSNum.fin W) (hH : s.CANVAS_HEIGHT = JSNum.fin H)
    (hWpos : 0 < W) (hHpos : 0 < H) :
    ∃ s1, updateSymmetry arg s = .ok s1 ∧
      (∀ d : ℚ, s.symmState.d = JSNum.fin d →
        (JSNum.le 1 s1.symmState.Nx = true ↔ 0 ≤ d ∧ d ≤ 4 * W) ∧
        (JSNum.le 1 s1.symmState.Ny = true ↔ 0 ≤ d ∧ d ≤ 4 * H)) ∧
      (s.symmState.d = JSNum.negZero →
        s1.symmState.Nx = JSNum.negInf ∧ s1.symmState.Ny = JSNum.negInf) ∧
      JSNum.le s1.symmState.Nx 50 = true ∧ JSNum.le s1.symmState.Ny 50 = true := by
  obtain ⟨s1, h, hx, hy⟩ := updateSymmetry_stored_counts arg s hdyn
  rw [hW] at hx
  rw [hH] at hy
  refine ⟨s1, h, ?_, ?_, ?_, ?_⟩
  · intro d hd
    rw [hd] at hx hy
    rw [hx, hy]
    exact ⟨one_le_stored_count_iff W d hWpos, one_le_stored_count_iff H d hHpos⟩
  · intro hd
    rw [hd] at hx hy
    rw [hx, hy]
    exact ⟨stored_count_negZero W hWpos, stored_count_negZero H hHpos⟩
  · rw [hx]
    exact clamp50_le _
  · rw [hy]
    exact clamp50_le _

/-- Witness of C11 as amended: on the 1600 by 1200 canvas the spacing 4000,
more than twice either dimension and less than four times, leaves both stored
counts at least 1. -/
theorem updateSymmetry_counts_lower_bound_witness :
    stateBigD.dynamicGridSize = true ∧
    stateBigD.CANVAS_WIDTH = JSNum.fin 1600 ∧ stateBigD.CANVAS_HEIGHT = JSNum.fin 1200 ∧
    stateBigD.symmState.d = JSNum.fin 4000 ∧
    ∃ s1, updateSymmetry .global stateBigD = .ok s1 ∧
      JSNum.le 1 s1.symmState.Nx = true ∧ JSNum.le 1 s1.symmState.Ny = true :=
  have hW : stateBigD.CANVAS_WIDTH = JSNum.fin 1600 := JSNum.ofNat_eq_fin 1600
  have hH : stateBigD.CANVAS_HEIGHT = JSNum.fin 1200 := JSNum.ofNat_eq_fin 1200
  have hd : stateBigD.symmState.d = JSNum.fin 4000 := JSNum.ofNat_eq_fin 4000
  let ⟨s1, h, hfin, _⟩ :=
    updateSymmetry_counts_lower_bound .global stateBigD 1600 1200 rfl hW hH
      (by norm_num) (by norm_num)
  ⟨rfl, hW, hH, hd, s1, h, (hfin 4000 hd).1.mpr (by norm_num),
    (hfin 4000 hd).2.mpr (by norm_num)⟩

/-- C12: `undo()` followed at once by `redo()`.  For every well-formed state
whose committed history is longer than the floor, both calls return normally,
the redo stack is afterwards what it was before, and the history followed by
the in-progress operation is the same sequence after the two calls as before
them; the last operation of that sequence is in progress in the tool it
names. -/
theorem undo_redo_round_trip (s : State) (hwf : WellFormed s)
    (hfloor : s.undo_init_bound < s.cmdstack.length) :
    ∃ s1 s2, undo s = .ok s1 ∧ redo s1 = .ok s2 ∧
      s2.redostack = s.redostack ∧
      effective s2 = effective s ∧
      ∀ e, (effective s).getLast? = some e →
        s2.curTool = e.tool ∧ inProgress s2 = some e := by
  obtain ⟨hcur, htools, hcmd, _, hlive⟩ := hwf
  have hmem : ∀ op ∈ effective s, op.tool ∈ drawToolKeys := by
    intro op hop
    unfold effective at hop
    rcases List.mem_append.mp hop with h | h
    · exact hcmd _ h
    · exact hlive _ hcur op (by simpa [inProgress] using h)
  have hlen : 0 < (effective s).length := by
    unfold effective
    rw [List.length_append]
    omega
  rcases list_one_or_two_last (effective s) hlen with ⟨e, he⟩ | ⟨es, em, en, he⟩
  · have het : e.tool ∈ drawToolKeys := hmem e (by simp [he])
    obtain ⟨s1, hu, hr1, hc1, ht1, hp1, hcap⟩ := undo_run_one s hcur htools hfloor e he
    have htools1 : ToolsComplete s1 := by
      intro k hk
      rw [(hcap k).1, (hcap k).2]
      exact htools k hk
    obtain ⟨s2, hr, hr2, hc2, ht2, hp2⟩ :=
      redo_run s1 (by rw [ht1]; exact hcur) htools1 s.redostack e hr1 het
    refine ⟨s1, s2, hu, hr, hr2, ?_, ?_⟩
    · rw [he]
      simp [effective, hc2, hp2, hc1, hp1]
    · intro e1 hlast
      rw [he] at hlast
      simp at hlast
      subst hlast
      exact ⟨ht2, hp2⟩
  · have hemt : em.tool ∈ drawToolKeys := hmem em (by simp [he])
    have hent : en.tool ∈ drawToolKeys := hmem en (by simp [he])
    obtain ⟨s1, hu, hr1, hc1, ht1, hp1, hcap⟩ :=
      undo_run_two s hcur htools hfloor es em en he hemt
    have htools1 : ToolsComplete s1 := by
      intro k hk
      rw [(hcap k).1, (hcap k).2]
      exact htools k hk
    obtain ⟨s2, hr, hr2, hc2, ht2, hp2⟩ :=
      redo_run s1 (by rw [ht1]; exact hemt) htools1 s.redostack en hr1 hent
    refine ⟨s1, s2, hu, hr, hr2, ?_, ?_⟩
    · rw [he]
      simp [effective, hc2, hp2, hc1, hp1]
    · intro e1 hlast
      have he2 : effective s = (es ++ [em]) ++ [en] := by simp [he]
      rw [he2, List.getLast?_concat] at hlast
      simp at hlast
      subst hlast
      exact ⟨ht2, hp2⟩

/-- Witness of C12: with the line and the circle committed and the polygon in
progress, undo then redo leaves the redo stack empty and the sequence line,
circle, polygon, with the polygon in progress in the polygon tool. -/
theorem undo_redo_round_trip_witness :
    WellFormed statePoly ∧ statePoly.undo_init_bound < statePoly.cmdstack.length ∧
    ∃ s1 s2, undo statePoly = .ok s1 ∧ redo s1 = .ok s2 ∧
      s2.redostack = [] ∧ effective s2 = [opA, opB, opC] ∧
      s2.curTool = "poly" ∧ inProgress s2 = some opC :=
  have heff : effective statePoly = [opA, opB, opC] := by
    simp [effective, inProgress, statePoly, state0]
  let ⟨s1, s2, h1, h2, h3, h4, h5⟩ :=
    undo_redo_round_trip statePoly wellFormed_statePoly (by decide)
  ⟨wellFormed_statePoly, by decide, s1, s2, h1, h2, h3, h4.trans heff,
    h5 opC (by rw [heff]; rfl)⟩

end Eschersketch
